import Mathlib

/-!
Verification of the retry/backoff, structured-log and test-data layer of the
TypeScript_Playwright_Orange_Demo repository.

The TypeScript sources are shallowly embedded:
- JavaScript runtime values are modelled by the inductive `JSValue`
  (undefined, null, booleans, numbers as rationals, strings, arrays,
  plain objects as insertion-ordered association lists with unique keys);
- the static classes `TestLogger` (src/unnamed/part_006),
  `TestUtils` and `TestDataManager` (src/tests/utils/test-utils.ts)
  become explicit state-passing functions;
- thrown JavaScript errors become `Except` error results, with an error
  modelled by its message string.
-/

/-! ## JavaScript value model -/

/-- A JavaScript runtime value, as far as this layer manipulates them:
`undefined`, `null`, booleans, numbers (modelled as rationals), strings,
arrays and plain objects (insertion-ordered field lists). -/
inductive JSValue : Type where
  | und  : JSValue
  | null : JSValue
  | bool : Bool → JSValue
  | num  : ℚ → JSValue
  | str  : String → JSValue
  | arr  : List JSValue → JSValue
  | obj  : List (String × JSValue) → JSValue

/-- The `typeof` operator restricted to the modelled values. -/
def typeofStr : JSValue → String
  | .und    => "undefined"
  | .null   => "object"
  | .bool _ => "boolean"
  | .num _  => "number"
  | .str _  => "string"
  | .arr _  => "object"
  | .obj _  => "object"

/-- JavaScript truthiness of a modelled value (`NaN` is outside the model). -/
def jsTruthy : JSValue → Bool
  | .und    => false
  | .null   => false
  | .bool b => b
  | .num q  => q != 0
  | .str s  => s != ""
  | .arr _  => true
  | .obj _  => true

/-- Decimal parse of a digit list, accumulator style. -/
def parseNatChars (cs : List Char) (acc : Nat) : Option Nat :=
  match cs with
  | [] => some acc
  | c :: cs' => if c.isDigit then parseNatChars cs' (acc * 10 + (c.toNat - 48)) else none

/-- A nonempty all-digit string parsed as a natural number (used for numeric
property keys). -/
def strToNat? (s : String) : Option Nat :=
  match s.toList with
  | [] => none
  | c :: cs => parseNatChars (c :: cs) 0

/-- Property read `v[key]` on the modelled values: first matching own field of
an object, element or `length` of an array or string, `undefined`
otherwise. -/
def jsGetField (v : JSValue) (key : String) : JSValue :=
  match v with
  | .obj fs =>
    match fs.find? (fun p => p.1 == key) with
    | some p => p.2
    | none => .und
  | .arr xs =>
    if key == "length" then .num xs.length
    else
      match strToNat? key with
      | some i => (xs.get? i).getD .und
      | none => .und
  | .str s =>
    if key == "length" then .num s.length
    else
      match strToNat? key with
      | some i =>
        match s.toList.get? i with
        | some c => .str (String.mk [c])
        | none => .und
      | none => .und
  | _ => .und

/-- The `in` operator: own-property membership for objects, index or `length`
membership for arrays, and a thrown `TypeError` on primitives (as in
JavaScript, where `k in null` or `k in 5` throws). -/
def jsIn (key : String) (v : JSValue) : Except String Bool :=
  match v with
  | .obj fs => .ok (fs.any (fun p => p.1 == key))
  | .arr xs =>
    .ok ((key == "length") || (List.range xs.length).any (fun i => toString i == key))
  | _ => .error "TypeError"

/-- Boolean projection of `jsIn` (meaningful on objects and arrays). -/
def jsInB (key : String) (v : JSValue) : Bool :=
  match jsIn key v with
  | .ok b => b
  | .error _ => false

mutual
/-- JavaScript `String(v)` coercion on the modelled values. -/
def jsToStr : JSValue → String
  | .und    => "undefined"
  | .null   => "null"
  | .bool b => if b then "true" else "false"
  | .num q  => toString q
  | .str s  => s
  | .arr xs => jsToStrElems xs
  | .obj _  => "[object Object]"

/-- `Array.prototype.toString`: elements joined by commas, with `null` and
`undefined` elements rendered as the empty string. -/
def jsToStrElems : List JSValue → String
  | [] => ""
  | [x] =>
    match x with
    | .und => ""
    | .null => ""
    | _ => jsToStr x
  | x :: y :: xs =>
    (match x with
     | .und => ""
     | .null => ""
     | _ => jsToStr x) ++ "," ++ jsToStrElems (y :: xs)
end

mutual
/-- The value observed after a `JSON.stringify` / `JSON.parse` round trip of a
value sitting in a non-dropping position: `undefined` object fields are
dropped, `undefined` array elements become `null`, everything else is
preserved recursively. -/
def jsonNormalize : JSValue → JSValue
  | .und    => .und
  | .null   => .null
  | .bool b => .bool b
  | .num q  => .num q
  | .str s  => .str s
  | .arr xs => .arr (jsonNormalizeArr xs)
  | .obj fs => .obj (jsonNormalizeObj fs)

/-- Array elements under the JSON round trip: `undefined` becomes `null`. -/
def jsonNormalizeArr : List JSValue → List JSValue
  | [] => []
  | x :: xs =>
    (match x with
     | .und => .null
     | _ => jsonNormalize x) :: jsonNormalizeArr xs

/-- Object fields under the JSON round trip: `undefined`-valued fields are
dropped by `JSON.stringify`. -/
def jsonNormalizeObj : List (String × JSValue) → List (String × JSValue)
  | [] => []
  | (k, v) :: fs =>
    match v with
    | .und => jsonNormalizeObj fs
    | _ => (k, jsonNormalize v) :: jsonNormalizeObj fs
end

/-! ## Structured log store (`TestLogger`, src/unnamed/part_006) -/

/-- The four log levels of `TestLogger`. -/
inductive LogLevel : Type where
  | debug : LogLevel
  | info  : LogLevel
  | warn  : LogLevel
  | error : LogLevel
deriving DecidableEq

/-- Position of a level in the array `["debug", "info", "warn", "error"]`
(the `indexOf` computation inside `TestLogger.shouldLog`). -/
def levelIdx : LogLevel → Nat
  | .debug => 0
  | .info  => 1
  | .warn  => 2
  | .error => 3

/-- `TestLogger.shouldLog`: the requested level's index is at least the index
of the configured level. -/
def shouldLog (level : LogLevel) (current : LogLevel) : Bool :=
  levelIdx current ≤ levelIdx level

/-- One stored log entry. The wall-clock ISO timestamp of the source is
modelled by an abstract monotone tick. -/
structure LogEntry : Type where
  timestamp : Nat
  level : LogLevel
  message : String
  context : Option JSValue
  testName : Option String

/-- The static state of `TestLogger`: the configured minimum level, the stored
entries in insertion order, and the model clock used for timestamps. -/
structure LoggerState : Type where
  logLevel : LogLevel
  logs : List LogEntry
  now : Nat

/-- The `TestLogger` state at module load: level `info`, no entries. -/
def initLogger : LoggerState := ⟨.info, [], 0⟩

namespace TestLogger

/-- `TestLogger.log`: unconditionally appends an entry stamped with the
current clock. Console echoing is outside the model. -/
def log (level : LogLevel) (message : String) (context : Option JSValue)
    (testName : Option String) (st : LoggerState) : LoggerState :=
  ⟨st.logLevel, st.logs ++ [⟨st.now, level, message, context, testName⟩], st.now + 1⟩

/-- `TestLogger.debug`: appends only when `shouldLog "debug"` holds. -/
def debug (message : String) (context : Option JSValue) (testName : Option String)
    (st : LoggerState) : LoggerState :=
  if shouldLog .debug st.logLevel then log .debug message context testName st else st

/-- `TestLogger.info`: appends only when `shouldLog "info"` holds. -/
def info (message : String) (context : Option JSValue) (testName : Option String)
    (st : LoggerState) : LoggerState :=
  if shouldLog .info st.logLevel then log .info message context testName st else st

/-- `TestLogger.warn`: appends only when `shouldLog "warn"` holds. -/
def warn (message : String) (context : Option JSValue) (testName : Option String)
    (st : LoggerState) : LoggerState :=
  if shouldLog .warn st.logLevel then log .warn message context testName st else st

/-- `TestLogger.error`: appends only when `shouldLog "error"` holds. -/
def error (message : String) (context : Option JSValue) (testName : Option String)
    (st : LoggerState) : LoggerState :=
  if shouldLog .error st.logLevel then log .error message context testName st else st

/-- The four public logging methods of `TestLogger`, indexed by their level. -/
def logAtLevel : LogLevel → String → Option JSValue → Option String →
    LoggerState → LoggerState
  | .debug => debug
  | .info => info
  | .warn => warn
  | .error => error

/-- `TestLogger.getLogsByTest`: the stored entries whose `testName` equals the
queried name, in insertion order. -/
def getLogsByTest (testName : String) (st : LoggerState) : List LogEntry :=
  st.logs.filter (fun e => e.testName == some testName)

/-- `TestLogger.getLogsByLevel`. -/
def getLogsByLevel (level : LogLevel) (st : LoggerState) : List LogEntry :=
  st.logs.filter (fun e => e.level == level)

/-- `TestLogger.clearLogs`: empties the store, leaving the level untouched. -/
def clearLogs (st : LoggerState) : LoggerState := ⟨st.logLevel, [], st.now⟩

end TestLogger

/-! ## Resilient executor (`TestUtils`, src/tests/utils/test-utils.ts) -/

/-- `Math.min` on two numbers. -/
def ratMin (a b : ℚ) : ℚ := if a ≤ b then a else b

/-- `Math.pow` restricted to a rational base and natural exponent. -/
def ratPow (q : ℚ) : Nat → ℚ
  | 0 => 1
  | n + 1 => ratPow q n * q

/-- The options object of `TestUtils.performActionWithRetry`; the source
defaults are `maxRetries = 3`, `baseDelay = 1000`, `maxDelay = 10000`,
`backoffMultiplier = 2`. -/
structure RetryOptions : Type where
  maxRetries : Nat
  baseDelay : ℚ
  maxDelay : ℚ
  backoffMultiplier : ℚ

/-- The source's default retry options. -/
def defaultRetryOptions : RetryOptions := ⟨3, 1000, 10000, 2⟩

/-- The backoff computed after failed attempt `a` inside the retry loop:
`Math.min(baseDelay * Math.pow(backoffMultiplier, attempt - 1), maxDelay)`. -/
def backoffDelay (opts : RetryOptions) (a : Nat) : ℚ :=
  ratMin (opts.baseDelay * ratPow opts.backoffMultiplier (a - 1)) opts.maxDelay

/-- A possibly-undefined caught error rendered as a context value (an error
is modelled by its message string, a thrown `undefined` by `undefined`). -/
def jsOfErr : Option String → JSValue
  | some e => .str e
  | none => .und

/-- Outcome of one run of `performActionWithRetry`: the returned value or the
finally thrown error (`none` models a thrown `undefined`, possible only when
`maxRetries = 0`), the number of action invocations, the backoff delays slept
in order, and the final `TestLogger` state. -/
structure RetryRunOut (α : Type) : Type where
  result : Except (Option String) α
  invocations : Nat
  delays : List ℚ
  logger : LoggerState

namespace TestUtils

/-- The retry loop of `performActionWithRetry`, from attempt number `attempt`
with `remaining` loop iterations left (`remaining = maxRetries - attempt + 1`
at every call) and `lastErr` the last caught error. The action is modelled as
a function from the attempt number to that attempt's outcome. Exhaustion of
the loop logs the final error-level entry and rethrows the last error. -/
def retryFrom {α : Type} (act : Nat → Except String α) (opts : RetryOptions)
    (testName : Option String) :
    Nat → Nat → Option String → LoggerState → RetryRunOut α
  | _, 0, lastErr, st =>
    let errCtx : JSValue := .obj [("error", jsOfErr lastErr)]
    let st1 := TestLogger.error
      ("Action failed after " ++ toString opts.maxRetries ++ " attempts")
      (some errCtx) testName st
    ⟨.error lastErr, 0, [], st1⟩
  | attempt, r + 1, _, st =>
    match act attempt with
    | .ok v =>
      let st1 := TestLogger.debug "Action succeeded"
        (some (.obj [("attempt", .num attempt)])) testName st
      ⟨.ok v, 1, [], st1⟩
    | .error e =>
      let st1 := TestLogger.warn
        ("Action attempt " ++ toString attempt ++ " failed")
        (some (.obj [("error", .str e), ("attempt", .num attempt)])) testName st
      if r = 0 then
        let rest := retryFrom act opts testName (attempt + 1) r (some e) st1
        ⟨rest.result, rest.invocations + 1, rest.delays, rest.logger⟩
      else
        let d := ratMin (opts.baseDelay * ratPow opts.backoffMultiplier (attempt - 1))
          opts.maxDelay
        let st2 := TestLogger.debug ("Retrying in " ++ toString d ++ "ms")
          (some (.obj [("attempt", .num attempt), ("delay", .num d)])) testName st1
        let rest := retryFrom act opts testName (attempt + 1) r (some e) st2
        ⟨rest.result, rest.invocations + 1, d :: rest.delays, rest.logger⟩

/-- `TestUtils.performActionWithRetry`: the initial debug entry followed by
the retry loop over attempts `1 .. maxRetries`. -/
def performActionWithRetry {α : Type} (act : Nat → Except String α)
    (opts : RetryOptions) (testName : Option String) (st : LoggerState) :
    RetryRunOut α :=
  let st1 := TestLogger.debug "Performing action with retry"
    (some (.obj [("maxRetries", .num opts.maxRetries), ("baseDelay", .num opts.baseDelay)]))
    testName st
  retryFrom act opts testName 1 opts.maxRetries none st1

/-- Outcome of one run of `retryOperation` (which only echoes to the console,
so no log-store state is involved). -/
structure RetryOpOut (α : Type) : Type where
  result : Except (Option String) α
  invocations : Nat
  delays : List ℚ

/-- The retry loop of `TestUtils.retryOperation`: same control flow as
`performActionWithRetry` but with a fixed multiplier of 2 and no `maxDelay`
clamp on the backoff. -/
def retryOpFrom {α : Type} (act : Nat → Except String α) (baseDelay : ℚ) :
    Nat → Nat → Option String → RetryOpOut α
  | _, 0, lastErr => ⟨.error lastErr, 0, []⟩
  | attempt, r + 1, _ =>
    match act attempt with
    | .ok v => ⟨.ok v, 1, []⟩
    | .error e =>
      if r = 0 then
        let rest := retryOpFrom act baseDelay (attempt + 1) r (some e)
        ⟨rest.result, rest.invocations + 1, rest.delays⟩
      else
        let d := baseDelay * ratPow 2 (attempt - 1)
        let rest := retryOpFrom act baseDelay (attempt + 1) r (some e)
        ⟨rest.result, rest.invocations + 1, d :: rest.delays⟩

/-- `TestUtils.retryOperation` with attempts `1 .. maxRetries`. -/
def retryOperation {α : Type} (act : Nat → Except String α) (maxRetries : Nat)
    (baseDelay : ℚ) : RetryOpOut α :=
  retryOpFrom act baseDelay 1 maxRetries none

end TestUtils

/-! ## Keyed data store (`TestDataManager`, src/tests/utils/test-utils.ts) -/

/-- The static `testData` map of `TestDataManager`: insertion-ordered
key/value pairs, at most one entry per key in every reachable state. -/
abbrev DataStore : Type := List (String × JSValue)

namespace TestDataManager

/-- `TestDataManager.storeData` (`Map.set`): replace the value of an existing
key in place, otherwise append the pair. -/
def storeData (key : String) (data : JSValue) : DataStore → DataStore
  | [] => [(key, data)]
  | (k, v) :: rest =>
    if k = key then (k, data) :: rest else (k, v) :: storeData key data rest

/-- `TestDataManager.getData` (`Map.get`): the stored value, `undefined` when
the key is absent. -/
def getData (key : String) : DataStore → JSValue
  | [] => .und
  | (k, v) :: rest => if k = key then v else getData key rest

/-- The `Map.delete` branch of `TestDataManager.clearData`. -/
def deleteKey (key : String) : DataStore → DataStore
  | [] => []
  | (k, v) :: rest => if k = key then rest else (k, v) :: deleteKey key rest

/-- `TestDataManager.clearData`: delete one key, or empty the whole store when
no key is given. -/
def clearData (key : Option String) (s : DataStore) : DataStore :=
  match key with
  | some k => deleteKey k s
  | none => []

/-- The `entriesByType` accumulation of `getDataSummary`: a plain object used
as a counter, keyed by `typeof` in first-occurrence order. -/
def bumpCount (t : String) : List (String × Nat) → List (String × Nat)
  | [] => [(t, 1)]
  | (t', n) :: rest =>
    if t' = t then (t', n + 1) :: rest else (t', n) :: bumpCount t rest

/-- The counts of stored values per `typeof`, in first-occurrence order. -/
def typeCounts (s : DataStore) : List (String × Nat) :=
  s.foldl (fun acc p => bumpCount (typeofStr p.2) acc) []

/-- `TestDataManager.getDataSummary` as a JSON value. `memoryUsage` is
`JSON.stringify(this.testData).length`; a `Map` instance serializes to an
object with no own enumerable properties, so that length is always 2. -/
def getDataSummary (s : DataStore) : JSValue :=
  .obj [("totalEntries", .num s.length),
        ("entriesByType", .obj ((typeCounts s).map (fun p => (p.1, .num p.2)))),
        ("memoryUsage", .num 2)]

/-- `TestDataManager.exportData`: the destination file's content, as it will
be seen by `JSON.parse` at import time — the export object
`{timestamp, data: Object.fromEntries(testData), summary}` after the
stringify/parse round trip. -/
def exportData (s : DataStore) (timestamp : String) : JSValue :=
  jsonNormalize (.obj [("timestamp", .str timestamp),
                       ("data", .obj s),
                       ("summary", getDataSummary s)])

/-- `Object.entries` on the values reachable behind the import guard
(`data.data` truthy): object fields, array index/value pairs, indexed string
characters, and no entries on booleans or numbers. -/
def jsEntries : JSValue → List (String × JSValue)
  | .obj fs => fs
  | .arr xs => (List.range xs.length).map
      (fun i => (toString i, (xs.get? i).getD .und))
  | .str s => (List.range s.length).map
      (fun i => (toString i, .str (String.mk [s.toList.getD i ' '])))
  | _ => []

/-- `TestDataManager.importData`: parse the file, and when `data.data` is
truthy replace the store wholesale by `new Map(Object.entries(data.data))`;
otherwise the store is left unchanged. -/
def importData (file : JSValue) (s : DataStore) : DataStore :=
  let d := jsGetField file "data"
  if jsTruthy d then jsEntries d else s

/-- JavaScript whitespace, as matched by the `\s` class in the email regular
expression (ASCII portion). -/
def isJsWs (c : Char) : Bool :=
  c = ' ' ∨ c = '\t' ∨ c = '\n' ∨ c = '\r' ∨ c = '\x0b' ∨ c = '\x0c'

/-- The groups of a character list split at `@` signs. -/
def splitAtSign : List Char → List (List Char)
  | [] => [[]]
  | c :: cs =>
    let r := splitAtSign cs
    if c = '@' then [] :: r
    else
      match r with
      | [] => [[c]]
      | g :: gs => (c :: g) :: gs

/-- `test` of the source's email regular expression
`^[^\s@]+@[^\s@]+\.[^\s@]+$`: exactly one `@`, no whitespace, a nonempty
local part, and a dot in the interior of the domain part. -/
def emailRegexTest (s : String) : Bool :=
  match splitAtSign s.toList with
  | [a, b] =>
    (!a.isEmpty) && a.all (fun c => !isJsWs c) && b.all (fun c => !isJsWs c)
      && (b.drop 1).dropLast.contains '.'
  | _ => false

/-- Leading and trailing whitespace removed, as `Number(string)` does. -/
def jsTrim (cs : List Char) : List Char :=
  ((cs.dropWhile isJsWs).reverse.dropWhile isJsWs).reverse

/-- JavaScript numeric coercion, as used by the `<` comparison in the
password-length check (only reachable on non-number `length` values);
`none` models `NaN`. -/
def jsToNumber : JSValue → Option ℚ
  | .num q => some q
  | .bool b => some (if b then 1 else 0)
  | .null => some 0
  | .und => none
  | .str s =>
    match jsTrim s.toList with
    | [] => some 0
    | c :: cs => (parseNatChars (c :: cs) 0).map (fun n => (n : ℚ))
  | .arr xs => if xs.length = 0 then some 0 else none
  | .obj _ => none

/-- The comparison `x < q` with JavaScript coercion; comparisons against a
coercion to `NaN` are false. -/
def jsLtNum (x : JSValue) (q : ℚ) : Bool :=
  match jsToNumber x with
  | some n => n < q
  | none => false

/-- The result record of `TestDataManager.validateData`. -/
structure ValidationResult : Type where
  isValid : Bool
  errors : List String
  warnings : List String

/-- The email warning pushed for a truthy `email` field failing the regular
expression. -/
def emailWarnings (key : String) (v : JSValue) : List String :=
  if key == "email" && jsTruthy v && !emailRegexTest (jsToStr v) then
    ["Email format may be invalid: " ++ jsToStr v]
  else []

/-- The password warning pushed for a truthy `password` field whose `.length`
is below 8. -/
def passwordWarnings (key : String) (v : JSValue) : List String :=
  if key == "password" && jsTruthy v && jsLtNum (jsGetField v "length") 8 then
    ["Password may be too short: " ++ jsToStr (jsGetField v "length") ++ " characters"]
  else []

/-- The `for (const [key, expectedType] of Object.entries(schema))` loop of
`validateData`, with the accumulated `errors` and `warnings` arrays. A thrown
`TypeError` from the `in` operator aborts the whole call. -/
def validateGo (data : JSValue) :
    List (String × String) → List String → List String →
    Except String ValidationResult
  | [], errs, warns => .ok ⟨errs.isEmpty, errs, warns⟩
  | (key, expectedType) :: rest, errs, warns =>
    match jsIn key data with
    | .error e => .error e
    | .ok false =>
      validateGo data rest (errs ++ ["Missing required field: " ++ key]) warns
    | .ok true =>
      let v := jsGetField data key
      let errs1 :=
        if typeofStr v != expectedType then
          errs ++ ["Field " ++ key ++ " expected type " ++ expectedType
            ++ ", got " ++ typeofStr v]
        else errs
      validateGo data rest errs1 (warns ++ emailWarnings key v ++ passwordWarnings key v)

/-- `TestDataManager.validateData`: structural validation of `data` against a
schema mapping field names to expected `typeof` strings. -/
def validateData (data : JSValue) (schema : List (String × String)) :
    Except String ValidationResult :=
  validateGo data schema [] []

end TestDataManager


/-! ## Lemmas about the keyed data store -/

namespace TestDataManager

/-- The keys of the store in order. -/
def keys (s : DataStore) : List String := s.map Prod.fst

theorem getData_storeData_self (k : String) (v : JSValue) (s : DataStore) :
    getData k (storeData k v s) = v := by
  induction s with
  | nil => simp [storeData, getData]
  | cons p rest ih =>
    obtain ⟨a, b⟩ := p
    by_cases h : a = k
    · rw [storeData, if_pos h, getData, if_pos h]
    · rw [storeData, if_neg h, getData, if_neg h]
      exact ih

theorem getData_storeData_ne (k j : String) (v : JSValue) (s : DataStore)
    (h : j ≠ k) : getData j (storeData k v s) = getData j s := by
  induction s with
  | nil => simp [storeData, getData, Ne.symm h]
  | cons p rest ih =>
    obtain ⟨a, b⟩ := p
    by_cases hk : a = k
    · subst hk
      simp [storeData, getData, Ne.symm h]
    · by_cases hj : a = j
      · simp [storeData, getData, hk, hj, h]
      · simp [storeData, getData, hk, hj, ih]

theorem storeData_storeData (k : String) (v1 v2 : JSValue) (s : DataStore) :
    storeData k v2 (storeData k v1 s) = storeData k v2 s := by
  induction s with
  | nil => simp [storeData]
  | cons p rest ih =>
    obtain ⟨a, b⟩ := p
    by_cases h : a = k
    · rw [storeData, if_pos h, storeData, if_pos h, storeData, if_pos h]
    · rw [storeData, if_neg h, storeData, if_neg h, storeData, if_neg h, ih]

theorem mem_keys_storeData (a k : String) (v : JSValue) (s : DataStore) :
    a ∈ keys (storeData k v s) ↔ a ∈ keys s ∨ a = k := by
  induction s with
  | nil => simp [storeData, keys, eq_comm]
  | cons p rest ih =>
    obtain ⟨x, b⟩ := p
    by_cases h : x = k
    · subst h
      rw [storeData, if_pos rfl]
      simp only [keys, List.map_cons, List.mem_cons] at ih ⊢
      constructor
      · rintro (h1 | h1)
        · exact Or.inl (Or.inl h1)
        · exact Or.inl (Or.inr h1)
      · rintro ((h1 | h1) | h1)
        · exact Or.inl h1
        · exact Or.inr h1
        · exact Or.inl h1
    · rw [storeData, if_neg h]
      simp only [keys, List.map_cons, List.mem_cons] at ih ⊢
      rw [ih]
      tauto

theorem keys_storeData_nodup (k : String) (v : JSValue) (s : DataStore)
    (h : (keys s).Nodup) : (keys (storeData k v s)).Nodup := by
  induction s with
  | nil => simp [storeData, keys]
  | cons p rest ih =>
    obtain ⟨a, b⟩ := p
    by_cases hk : a = k
    · rw [storeData, if_pos hk]
      simpa [keys] using h
    · rw [storeData, if_neg hk]
      simp only [keys, List.map_cons, List.nodup_cons] at h ⊢
      refine ⟨fun hm => ?_, ih h.2⟩
      rcases (mem_keys_storeData a k v rest).1 hm with h3 | h3
      · exact h.1 h3
      · exact hk h3

theorem keys_deleteKey_sublist (k : String) (s : DataStore) :
    List.Sublist (keys (deleteKey k s)) (keys s) := by
  induction s with
  | nil => simp [deleteKey, keys]
  | cons p rest ih =>
    obtain ⟨a, b⟩ := p
    by_cases h : a = k
    · rw [deleteKey, if_pos h]
      exact List.sublist_cons_self _ _
    · rw [deleteKey, if_neg h]
      simp only [keys, List.map_cons]
      exact ih.cons₂ a

theorem keys_deleteKey_nodup (k : String) (s : DataStore)
    (h : (keys s).Nodup) : (keys (deleteKey k s)).Nodup :=
  (keys_deleteKey_sublist k s).nodup h

theorem getData_eq_und_of_not_mem (k : String) (s : DataStore)
    (h : k ∉ keys s) : getData k s = .und := by
  induction s with
  | nil => rfl
  | cons p rest ih =>
    obtain ⟨a, b⟩ := p
    simp only [keys, List.map_cons, List.mem_cons] at h
    push_neg at h
    rw [getData, if_neg (fun hh => h.1 hh.symm)]
    exact ih h.2

theorem getData_deleteKey_self (k : String) (s : DataStore)
    (h : (keys s).Nodup) : getData k (deleteKey k s) = .und := by
  induction s with
  | nil => rfl
  | cons p rest ih =>
    obtain ⟨a, b⟩ := p
    simp only [keys, List.map_cons, List.nodup_cons] at h
    by_cases hk : a = k
    · rw [deleteKey, if_pos hk]
      subst hk
      exact getData_eq_und_of_not_mem a rest h.1
    · rw [deleteKey, if_neg hk, getData, if_neg hk]
      exact ih h.2

theorem getData_deleteKey_ne (k j : String) (s : DataStore)
    (h : j ≠ k) : getData j (deleteKey k s) = getData j s := by
  induction s with
  | nil => rfl
  | cons p rest ih =>
    obtain ⟨a, b⟩ := p
    by_cases hk : a = k
    · rw [deleteKey, if_pos hk, getData]
      subst hk
      rw [if_neg (fun hh => h hh.symm)]
    · rw [deleteKey, if_neg hk, getData, getData]
      by_cases hj : a = j
      · rw [if_pos hj, if_pos hj]
      · rw [if_neg hj, if_neg hj]
        exact ih

end TestDataManager

/-! ## JSON round-trip lemmas -/

theorem getData_jsonNormalizeObj_of_not_mem (k : String) :
    ∀ (s : DataStore), k ∉ TestDataManager.keys s →
      TestDataManager.getData k (jsonNormalizeObj s) = .und := by
  intro s
  induction s with
  | nil => intro _; rfl
  | cons p rest ih =>
    obtain ⟨a, v⟩ := p
    intro h
    simp only [TestDataManager.keys, List.map_cons, List.mem_cons] at h
    push_neg at h
    have hak : ¬ a = k := fun hh => h.1 hh.symm
    cases v with
    | und => exact ih h.2
    | null => simpa [jsonNormalizeObj, TestDataManager.getData, hak] using ih h.2
    | bool b => simpa [jsonNormalizeObj, TestDataManager.getData, hak] using ih h.2
    | num q => simpa [jsonNormalizeObj, TestDataManager.getData, hak] using ih h.2
    | str x => simpa [jsonNormalizeObj, TestDataManager.getData, hak] using ih h.2
    | arr xs => simpa [jsonNormalizeObj, TestDataManager.getData, hak] using ih h.2
    | obj fs => simpa [jsonNormalizeObj, TestDataManager.getData, hak] using ih h.2

theorem getData_jsonNormalizeObj (k : String) :
    ∀ (s : DataStore), (TestDataManager.keys s).Nodup →
      TestDataManager.getData k (jsonNormalizeObj s)
        = jsonNormalize (TestDataManager.getData k s) := by
  intro s
  induction s with
  | nil => intro _; rfl
  | cons p rest ih =>
    obtain ⟨a, v⟩ := p
    intro hs
    simp only [TestDataManager.keys, List.map_cons, List.nodup_cons] at hs
    by_cases hak : a = k
    · subst hak
      cases v with
      | und =>
        rw [jsonNormalizeObj]
        simp only [TestDataManager.getData, if_pos rfl]
        exact getData_jsonNormalizeObj_of_not_mem a rest hs.1
      | null => simp [jsonNormalizeObj, TestDataManager.getData]
      | bool b => simp [jsonNormalizeObj, TestDataManager.getData]
      | num q => simp [jsonNormalizeObj, TestDataManager.getData]
      | str x => simp [jsonNormalizeObj, TestDataManager.getData]
      | arr xs => simp [jsonNormalizeObj, TestDataManager.getData]
      | obj fs => simp [jsonNormalizeObj, TestDataManager.getData]
    · cases v with
      | und =>
        rw [jsonNormalizeObj]
        simp only [TestDataManager.getData, if_neg hak]
        exact ih hs.2
      | null => simpa [jsonNormalizeObj, TestDataManager.getData, hak] using ih hs.2
      | bool b => simpa [jsonNormalizeObj, TestDataManager.getData, hak] using ih hs.2
      | num q => simpa [jsonNormalizeObj, TestDataManager.getData, hak] using ih hs.2
      | str x => simpa [jsonNormalizeObj, TestDataManager.getData, hak] using ih hs.2
      | arr xs => simpa [jsonNormalizeObj, TestDataManager.getData, hak] using ih hs.2
      | obj fs => simpa [jsonNormalizeObj, TestDataManager.getData, hak] using ih hs.2

theorem importData_exportData (s : DataStore) (ts : String) (s0 : DataStore) :
    TestDataManager.importData (TestDataManager.exportData s ts) s0
      = jsonNormalizeObj s := by
  simp [TestDataManager.exportData, TestDataManager.importData,
    TestDataManager.getDataSummary, jsonNormalize, jsonNormalizeObj,
    jsGetField, TestDataManager.jsEntries, jsTruthy, List.find?]

/-! ## Claim theorems: the keyed data store -/

/-- C6: the store keeps at most one entry per key in every reachable state
(the empty store satisfies the invariant and `storeData` / `clearData`
preserve it), and writes are last-write-wins: storing `v1` then `v2` under
the same key is the same as storing `v2` alone, so `getData` returns `v2`
and `v1` is no longer retrievable. -/
theorem c6_store_last_write_wins (s : DataStore) (k : String) (v1 v2 : JSValue)
    (hs : (TestDataManager.keys s).Nodup) :
    (TestDataManager.keys ([] : DataStore)).Nodup ∧
    (TestDataManager.keys (TestDataManager.storeData k v1 s)).Nodup ∧
    (TestDataManager.keys (TestDataManager.clearData (some k) s)).Nodup ∧
    TestDataManager.storeData k v2 (TestDataManager.storeData k v1 s)
      = TestDataManager.storeData k v2 s ∧
    TestDataManager.getData k
      (TestDataManager.storeData k v2 (TestDataManager.storeData k v1 s)) = v2 := by
  refine ⟨by simp [TestDataManager.keys], TestDataManager.keys_storeData_nodup k v1 s hs,
    TestDataManager.keys_deleteKey_nodup k s hs,
    TestDataManager.storeData_storeData k v1 v2 s, ?_⟩
  rw [TestDataManager.storeData_storeData k v1 v2 s]
  exact TestDataManager.getData_storeData_self k v2 s

/-- Witness for C6 at a concrete store. -/
theorem c6_witness :
    (TestDataManager.keys [("a", JSValue.num 1)]).Nodup ∧
    TestDataManager.getData "k"
      (TestDataManager.storeData "k" (JSValue.num 3)
        (TestDataManager.storeData "k" (JSValue.num 2) [("a", JSValue.num 1)]))
      = JSValue.num 3 :=
  ⟨by simp [TestDataManager.keys],
   (c6_store_last_write_wins [("a", JSValue.num 1)] "k" (JSValue.num 2) (JSValue.num 3)
     (by simp [TestDataManager.keys])).2.2.2.2⟩

/-- C10: `clearData(k)` removes only the entry for `k`: afterwards
`getData k` is `undefined` while every other key reads exactly as before. -/
theorem c10_clear_data_frame (s : DataStore) (k k' : String)
    (hs : (TestDataManager.keys s).Nodup) (hne : k' ≠ k) :
    TestDataManager.getData k (TestDataManager.clearData (some k) s) = JSValue.und ∧
    TestDataManager.getData k' (TestDataManager.clearData (some k) s)
      = TestDataManager.getData k' s ∧
    (∀ j, j ≠ k → TestDataManager.getData j (TestDataManager.clearData (some k) s)
      = TestDataManager.getData j s) :=
  ⟨TestDataManager.getData_deleteKey_self k s hs,
   TestDataManager.getData_deleteKey_ne k k' s hne,
   fun j hj => TestDataManager.getData_deleteKey_ne k j s hj⟩

/-- Witness for C10 at a concrete two-entry store. -/
theorem c10_witness :
    ((TestDataManager.keys [("a", JSValue.num 1), ("b", JSValue.num 2)]).Nodup
      ∧ ("b" : String) ≠ "a") ∧
    (TestDataManager.getData "a"
        (TestDataManager.clearData (some "a") [("a", JSValue.num 1), ("b", JSValue.num 2)])
      = JSValue.und ∧
     TestDataManager.getData "b"
        (TestDataManager.clearData (some "a") [("a", JSValue.num 1), ("b", JSValue.num 2)])
      = TestDataManager.getData "b" [("a", JSValue.num 1), ("b", JSValue.num 2)] ∧
     (∀ j, j ≠ "a" →
        TestDataManager.getData j
          (TestDataManager.clearData (some "a") [("a", JSValue.num 1), ("b", JSValue.num 2)])
        = TestDataManager.getData j [("a", JSValue.num 1), ("b", JSValue.num 2)])) :=
  ⟨⟨by simp [TestDataManager.keys], by simp⟩,
   c10_clear_data_frame [("a", JSValue.num 1), ("b", JSValue.num 2)] "a" "b"
     (by simp [TestDataManager.keys]) (by simp)⟩

/-- C4 counterexample: a stored object value with an `undefined` field does
not survive the export/import round trip (`JSON.stringify` drops the field),
so `getData` after import differs from the original value. -/
theorem c4_export_import_cex :
    TestDataManager.getData "k"
        (TestDataManager.importData
          (TestDataManager.exportData [("k", JSValue.obj [("a", JSValue.und)])] "t") [])
      ≠ TestDataManager.getData "k" [("k", JSValue.obj [("a", JSValue.und)])] := by
  intro h
  have h1 : TestDataManager.getData "k"
      (TestDataManager.importData
        (TestDataManager.exportData [("k", JSValue.obj [("a", JSValue.und)])] "t") [])
      = JSValue.obj [] := rfl
  have h2 : TestDataManager.getData "k" [("k", JSValue.obj [("a", JSValue.und)])]
      = JSValue.obj [("a", JSValue.und)] := rfl
  rw [h1, h2] at h
  injection h with h3
  simp at h3

/-- C4 amended: after exporting and importing into a freshly cleared store,
`getData k` returns the JSON normalization of the original value
(`undefined`-valued object fields dropped, `undefined` array elements turned
into `null`); in particular it equals the original value whenever that value
is JSON-stable, e.g. whenever it contains no `undefined`. -/
theorem c4_export_import_roundtrip_amended (s : DataStore) (ts k : String)
    (hs : (TestDataManager.keys s).Nodup) :
    TestDataManager.getData k
        (TestDataManager.importData (TestDataManager.exportData s ts) [])
      = jsonNormalize (TestDataManager.getData k s) ∧
    (jsonNormalize (TestDataManager.getData k s) = TestDataManager.getData k s →
      TestDataManager.getData k
          (TestDataManager.importData (TestDataManager.exportData s ts) [])
        = TestDataManager.getData k s) := by
  have h1 : TestDataManager.getData k
      (TestDataManager.importData (TestDataManager.exportData s ts) [])
      = jsonNormalize (TestDataManager.getData k s) := by
    rw [importData_exportData s ts []]
    exact getData_jsonNormalizeObj k s hs
  exact ⟨h1, fun h2 => h1.trans h2⟩

/-- Witness for C4 (amended) at a concrete store. -/
theorem c4_witness :
    (TestDataManager.keys [("k", JSValue.num 5)]).Nodup ∧
    TestDataManager.getData "k"
        (TestDataManager.importData
          (TestDataManager.exportData [("k", JSValue.num 5)] "t") [])
      = jsonNormalize (TestDataManager.getData "k" [("k", JSValue.num 5)]) :=
  ⟨by simp [TestDataManager.keys],
   (c4_export_import_roundtrip_amended [("k", JSValue.num 5)] "t" "k"
     (by simp [TestDataManager.keys])).1⟩

/-! ## Claim theorems: the structured log store -/

/-- C3: with the configured minimum level `warn`, `debug` and `info` appends
leave the stored sequence unchanged while `warn` and `error` appends store
exactly one entry; in general an append through any of the four public
methods stores the entry exactly when its level index reaches the configured
minimum's index under debug < info < warn < error. -/
theorem c3_log_level_filtering (st : LoggerState) (m : String) (c : Option JSValue)
    (tn : Option String) (hw : st.logLevel = LogLevel.warn) :
    TestLogger.debug m c tn st = st ∧
    TestLogger.info m c tn st = st ∧
    (TestLogger.warn m c tn st).logs
      = st.logs ++ [⟨st.now, LogLevel.warn, m, c, tn⟩] ∧
    (TestLogger.error m c tn st).logs
      = st.logs ++ [⟨st.now, LogLevel.error, m, c, tn⟩] ∧
    (∀ (lvl : LogLevel) (st' : LoggerState),
      (TestLogger.logAtLevel lvl m c tn st').logs
        = st'.logs ++
            (if levelIdx st'.logLevel ≤ levelIdx lvl
             then [⟨st'.now, lvl, m, c, tn⟩] else [])) := by
  refine ⟨?_, ?_, ?_, ?_, ?_⟩
  · simp [TestLogger.debug, shouldLog, hw, levelIdx]
  · simp [TestLogger.info, shouldLog, hw, levelIdx]
  · simp [TestLogger.warn, shouldLog, hw, levelIdx, TestLogger.log]
  · simp [TestLogger.error, shouldLog, hw, levelIdx, TestLogger.log]
  · intro lvl st'
    cases lvl <;>
      · simp only [TestLogger.logAtLevel, TestLogger.debug, TestLogger.info,
          TestLogger.warn, TestLogger.error, shouldLog, TestLogger.log]
        split <;> simp_all

/-- Witness for C3 at a concrete warn-level store. -/
theorem c3_witness :
    (LoggerState.mk LogLevel.warn [] 0).logLevel = LogLevel.warn ∧
    (TestLogger.debug "m" none none ⟨LogLevel.warn, [], 0⟩ = ⟨LogLevel.warn, [], 0⟩ ∧
     TestLogger.info "m" none none ⟨LogLevel.warn, [], 0⟩ = ⟨LogLevel.warn, [], 0⟩ ∧
     (TestLogger.warn "m" none none ⟨LogLevel.warn, [], 0⟩).logs
       = [] ++ [⟨0, LogLevel.warn, "m", none, none⟩] ∧
     (TestLogger.error "m" none none ⟨LogLevel.warn, [], 0⟩).logs
       = [] ++ [⟨0, LogLevel.error, "m", none, none⟩] ∧
     (∀ (lvl : LogLevel) (st' : LoggerState),
       (TestLogger.logAtLevel lvl "m" none none st').logs
         = st'.logs ++
             (if levelIdx st'.logLevel ≤ levelIdx lvl
              then [⟨st'.now, lvl, "m", none, none⟩] else []))) :=
  ⟨rfl, c3_log_level_filtering ⟨LogLevel.warn, [], 0⟩ "m" none none rfl⟩

/-- C7: querying the log store by tag returns exactly the entries carrying
that tag, in insertion order (the result is a sublist of the stored sequence
and membership is equivalent to carrying the tag); in particular after
appending entries tagged a, a, b to a fresh info-level store, querying tag a
yields the first two entries in order. -/
theorem c7_logs_by_test_query (st : LoggerState) (t : String)
    (m1 m2 m3 : String) (c1 c2 c3 : Option JSValue) :
    List.Sublist (TestLogger.getLogsByTest t st) st.logs ∧
    (∀ e, e ∈ TestLogger.getLogsByTest t st ↔ (e ∈ st.logs ∧ e.testName = some t)) ∧
    TestLogger.getLogsByTest "a"
        (TestLogger.info m3 c3 (some "b")
          (TestLogger.info m2 c2 (some "a")
            (TestLogger.info m1 c1 (some "a") ⟨LogLevel.info, [], 0⟩)))
      = [⟨0, LogLevel.info, m1, c1, some "a"⟩, ⟨1, LogLevel.info, m2, c2, some "a"⟩] := by
  refine ⟨List.filter_sublist _, fun e => ?_, ?_⟩
  · simp [TestLogger.getLogsByTest, List.mem_filter]
  · simp [TestLogger.info, shouldLog, levelIdx, TestLogger.log,
      TestLogger.getLogsByTest, List.filter]

/-! ## Claim theorems: validation -/

/-- Values on which the `in` operator is defined (objects and arrays). -/
def isObjLike : JSValue → Bool
  | .obj _ => true
  | .arr _ => true
  | _ => false

theorem jsIn_ok (d : JSValue) (key : String) (hobj : isObjLike d = true) :
    jsIn key d = .ok (jsInB key d) := by
  cases d <;> simp [isObjLike] at hobj ⊢ <;> rfl

theorem validateGo_ok_shape (d : JSValue) (hobj : isObjLike d = true) :
    ∀ (sch : List (String × String)) (errs warns : List String),
      ∃ errs2 warns2,
        TestDataManager.validateGo d sch errs warns
          = .ok ⟨(errs ++ errs2).isEmpty, errs ++ errs2, warns ++ warns2⟩ ∧
        errs2.length = sch.countP
          (fun p => !(jsInB p.1 d) || (typeofStr (jsGetField d p.1) != p.2)) := by
  intro sch
  induction sch with
  | nil =>
    intro errs warns
    exact ⟨[], [], by simp [TestDataManager.validateGo], by simp⟩
  | cons p rest ih =>
    intro errs warns
    obtain ⟨key, et⟩ := p
    rw [TestDataManager.validateGo, jsIn_ok d key hobj]
    cases hb : jsInB key d with
    | false =>
      obtain ⟨e2, w2, h1, h2⟩ := ih (errs ++ ["Missing required field: " ++ key]) warns
      refine ⟨("Missing required field: " ++ key) :: e2, w2, ?_, ?_⟩
      · simpa [List.append_assoc] using h1
      · simp [List.countP_cons, hb, h2]
    | true =>
      by_cases hm : typeofStr (jsGetField d key) != et
      · obtain ⟨e2, w2, h1, h2⟩ := ih
          (errs ++ ["Field " ++ key ++ " expected type " ++ et ++ ", got "
            ++ typeofStr (jsGetField d key)])
          (warns ++ TestDataManager.emailWarnings key (jsGetField d key)
            ++ TestDataManager.passwordWarnings key (jsGetField d key))
        refine ⟨("Field " ++ key ++ " expected type " ++ et ++ ", got "
            ++ typeofStr (jsGetField d key)) :: e2,
          TestDataManager.emailWarnings key (jsGetField d key)
            ++ TestDataManager.passwordWarnings key (jsGetField d key) ++ w2, ?_, ?_⟩
        · simp only [hm, if_true]
          simpa [List.append_assoc] using h1
        · simp [List.countP_cons, hb, hm, h2]
      · obtain ⟨e2, w2, h1, h2⟩ := ih errs
          (warns ++ TestDataManager.emailWarnings key (jsGetField d key)
            ++ TestDataManager.passwordWarnings key (jsGetField d key))
        refine ⟨e2,
          TestDataManager.emailWarnings key (jsGetField d key)
            ++ TestDataManager.passwordWarnings key (jsGetField d key) ++ w2, ?_, ?_⟩
        · simp only [hm, if_false]
          simpa [List.append_assoc] using h1
        · simp only [List.countP_cons, hb, hm]
          simpa using h2

/-- C5 counterexample: `validateData(null, nonempty schema)` throws a
`TypeError` (the `in` operator on `null`), refuting "returns normally for
any input value, including null or non-object values". -/
theorem c5_validate_throws_cex :
    TestDataManager.validateData JSValue.null [("a", "string")]
      = Except.error "TypeError" := rfl

/-- C5 amended: for every object or array input value `validateData` returns
normally with one error per schema-declared field that is missing or whose
`typeof` differs from the declared type, and the result is valid exactly when
the error list is empty; on any input the empty schema also returns normally.
For null and primitive inputs with a nonempty schema the membership test
throws a `TypeError`. -/
theorem c5_validate_structured_amended (d : JSValue)
    (schema : List (String × String)) (hobj : isObjLike d = true) :
    (∃ r, TestDataManager.validateData d schema = Except.ok r ∧
      r.errors.length = schema.countP
        (fun p => !(jsInB p.1 d) || (typeofStr (jsGetField d p.1) != p.2)) ∧
      (r.isValid = true ↔ r.errors = [])) ∧
    (∀ d2 : JSValue, TestDataManager.validateData d2 []
      = Except.ok ⟨true, [], []⟩) := by
  constructor
  · obtain ⟨e2, w2, h1, h2⟩ := validateGo_ok_shape d hobj schema [] []
    refine ⟨⟨e2.isEmpty, e2, w2⟩, ?_, by simpa using h2, ?_⟩
    · simpa [TestDataManager.validateData] using h1
    · simp [List.isEmpty_iff]
  · intro d2
    rfl

/-- Witness for C5 (amended) at a concrete object and schema. -/
theorem c5_witness :
    isObjLike (JSValue.obj [("a", JSValue.num 1)]) = true ∧
    ((∃ r, TestDataManager.validateData (JSValue.obj [("a", JSValue.num 1)])
        [("a", "string"), ("b", "number")] = Except.ok r ∧
      r.errors.length = ([("a", "string"), ("b", "number")] : List (String × String)).countP
        (fun p => !(jsInB p.1 (JSValue.obj [("a", JSValue.num 1)]))
          || (typeofStr (jsGetField (JSValue.obj [("a", JSValue.num 1)]) p.1) != p.2)) ∧
      (r.isValid = true ↔ r.errors = [])) ∧
    (∀ d2 : JSValue, TestDataManager.validateData d2 []
      = Except.ok ⟨true, [], []⟩)) :=
  ⟨rfl, c5_validate_structured_amended (JSValue.obj [("a", JSValue.num 1)])
    [("a", "string"), ("b", "number")] rfl⟩

theorem validateGo_isValid (d : JSValue) :
    ∀ (sch : List (String × String)) (errs warns : List String)
      (r : TestDataManager.ValidationResult),
      TestDataManager.validateGo d sch errs warns = .ok r →
      r.isValid = r.errors.isEmpty := by
  intro sch
  induction sch with
  | nil =>
    intro errs warns r h
    rw [TestDataManager.validateGo] at h
    cases h
    rfl
  | cons p rest ih =>
    intro errs warns r h
    obtain ⟨key, et⟩ := p
    rw [TestDataManager.validateGo] at h
    cases hj : jsIn key d with
    | error e =>
      rw [hj] at h
      simp at h
    | ok b =>
      rw [hj] at h
      cases b with
      | false => exact ih _ _ r (by simpa using h)
      | true => exact ih _ _ r (by simpa using h)

/-- C9: the `isValid` flag of a `validateData` result equals emptiness of its
error list (so warnings — which only ever extend the warnings list — never
change the validity verdict). -/
theorem c9_isvalid_iff_errors_empty (d : JSValue) (schema : List (String × String))
    (r : TestDataManager.ValidationResult)
    (h : TestDataManager.validateData d schema = Except.ok r) :
    r.isValid = r.errors.isEmpty ∧ (r.isValid = true ↔ r.errors = []) := by
  have h1 := validateGo_isValid d schema [] [] r h
  exact ⟨h1, by rw [h1]; simp [List.isEmpty_iff]⟩

/-- Witness for C9: a result with two warnings, no errors, `isValid` true. -/
theorem c9_witness :
    TestDataManager.validateData
        (JSValue.obj [("email", JSValue.str "bad"), ("password", JSValue.str "short")])
        [("email", "string"), ("password", "string")]
      = Except.ok ⟨true, [], ["Email format may be invalid: bad",
          "Password may be too short: 5 characters"]⟩ ∧
    ((⟨true, [], ["Email format may be invalid: bad",
        "Password may be too short: 5 characters"]⟩
        : TestDataManager.ValidationResult).isValid
      = (⟨true, [], ["Email format may be invalid: bad",
          "Password may be too short: 5 characters"]⟩
          : TestDataManager.ValidationResult).errors.isEmpty ∧
     ((⟨true, [], ["Email format may be invalid: bad",
         "Password may be too short: 5 characters"]⟩
         : TestDataManager.ValidationResult).isValid = true
       ↔ (⟨true, [], ["Email format may be invalid: bad",
           "Password may be too short: 5 characters"]⟩
           : TestDataManager.ValidationResult).errors = [])) :=
  ⟨rfl, c9_isvalid_iff_errors_empty
    (JSValue.obj [("email", JSValue.str "bad"), ("password", JSValue.str "short")])
    [("email", "string"), ("password", "string")] _ rfl⟩

/-! ## Lemmas about the resilient executor -/

/-- Warn-level entries, as selected when counting attempt warnings. -/
def isWarnEntry (e : LogEntry) : Bool := e.level == LogLevel.warn

/-- Error-level entries, as selected when counting exhaustion reports. -/
def isErrorEntry (e : LogEntry) : Bool := e.level == LogLevel.error

/-- The warn entry stored for failed attempt `i` with error `e` at tick
`ts`. -/
def warnAttemptEntry (i : Nat) (e : String) (tn : Option String) (ts : Nat) : LogEntry :=
  ⟨ts, LogLevel.warn, "Action attempt " ++ toString i ++ " failed",
   some (.obj [("error", .str e), ("attempt", .num i)]), tn⟩

/-- The error entry stored after all `m` attempts are exhausted with final
error `e` at tick `ts`. -/
def exhaustEntry (m : Nat) (e : Option String) (tn : Option String) (ts : Nat) : LogEntry :=
  ⟨ts, LogLevel.error, "Action failed after " ++ toString m ++ " attempts",
   some (.obj [("error", jsOfErr e)]), tn⟩

theorem shouldLog_error_true (l : LogLevel) : shouldLog LogLevel.error l = true := by
  cases l <;> rfl

theorem debug_logLevel (m : String) (c : Option JSValue) (tn : Option String)
    (st : LoggerState) : (TestLogger.debug m c tn st).logLevel = st.logLevel := by
  unfold TestLogger.debug
  split <;> rfl

theorem warn_logLevel (m : String) (c : Option JSValue) (tn : Option String)
    (st : LoggerState) : (TestLogger.warn m c tn st).logLevel = st.logLevel := by
  unfold TestLogger.warn
  split <;> rfl

theorem error_logLevel (m : String) (c : Option JSValue) (tn : Option String)
    (st : LoggerState) : (TestLogger.error m c tn st).logLevel = st.logLevel := by
  unfold TestLogger.error
  split <;> rfl

theorem debug_filter_warn (m : String) (c : Option JSValue) (tn : Option String)
    (st : LoggerState) :
    (TestLogger.debug m c tn st).logs.filter isWarnEntry
      = st.logs.filter isWarnEntry := by
  unfold TestLogger.debug
  split
  · simp [TestLogger.log, List.filter_append, isWarnEntry]
  · rfl

theorem debug_filter_error (m : String) (c : Option JSValue) (tn : Option String)
    (st : LoggerState) :
    (TestLogger.debug m c tn st).logs.filter isErrorEntry
      = st.logs.filter isErrorEntry := by
  unfold TestLogger.debug
  split
  · simp [TestLogger.log, List.filter_append, isErrorEntry]
  · rfl

theorem warn_filter_error (m : String) (c : Option JSValue) (tn : Option String)
    (st : LoggerState) :
    (TestLogger.warn m c tn st).logs.filter isErrorEntry
      = st.logs.filter isErrorEntry := by
  unfold TestLogger.warn
  split
  · simp [TestLogger.log, List.filter_append, isErrorEntry]
  · rfl

theorem warn_filter_warn_stored (m : String) (c : Option JSValue) (tn : Option String)
    (st : LoggerState) (hw : shouldLog LogLevel.warn st.logLevel = true) :
    (TestLogger.warn m c tn st).logs.filter isWarnEntry
      = st.logs.filter isWarnEntry ++ [⟨st.now, LogLevel.warn, m, c, tn⟩] := by
  unfold TestLogger.warn
  rw [if_pos hw]
  simp [TestLogger.log, List.filter_append, isWarnEntry]

theorem error_filter_warn (m : String) (c : Option JSValue) (tn : Option String)
    (st : LoggerState) :
    (TestLogger.error m c tn st).logs.filter isWarnEntry
      = st.logs.filter isWarnEntry := by
  unfold TestLogger.error
  rw [if_pos (shouldLog_error_true st.logLevel)]
  simp [TestLogger.log, List.filter_append, isWarnEntry]

theorem error_filter_error (m : String) (c : Option JSValue) (tn : Option String)
    (st : LoggerState) :
    (TestLogger.error m c tn st).logs.filter isErrorEntry
      = st.logs.filter isErrorEntry ++ [⟨st.now, LogLevel.error, m, c, tn⟩] := by
  unfold TestLogger.error
  rw [if_pos (shouldLog_error_true st.logLevel)]
  simp [TestLogger.log, List.filter_append, isErrorEntry]

theorem retryFrom_invocations_le {α : Type} (act : Nat → Except String α)
    (opts : RetryOptions) (tn : Option String) :
    ∀ (r attempt : Nat) (lastErr : Option String) (st : LoggerState),
      (TestUtils.retryFrom act opts tn attempt r lastErr st).invocations ≤ r := by
  intro r
  induction r with
  | zero => intro attempt lastErr st; simp [TestUtils.retryFrom]
  | succ r' ih =>
    intro attempt lastErr st
    rw [TestUtils.retryFrom]
    cases act attempt with
    | ok v => simp
    | error e =>
      by_cases hr : r' = 0
      · simp only [if_pos hr]
        exact Nat.add_le_add_right (ih (attempt + 1) (some e) _) 1
      · simp only [if_neg hr]
        exact Nat.add_le_add_right (ih (attempt + 1) (some e) _) 1

theorem retryFrom_allFail_core {α : Type} (act : Nat → Except String α)
    (opts : RetryOptions) (tn : Option String) (errOf : Nat → String) :
    ∀ (r attempt : Nat) (lastErr : Option String) (st : LoggerState),
      (∀ i, attempt ≤ i → i < attempt + r → act i = .error (errOf i)) →
      (TestUtils.retryFrom act opts tn attempt r lastErr st).result
          = .error (match r with
                    | 0 => lastErr
                    | Nat.succ k => some (errOf (attempt + k))) ∧
      (TestUtils.retryFrom act opts tn attempt r lastErr st).invocations = r ∧
      (TestUtils.retryFrom act opts tn attempt r lastErr st).delays
          = (List.range' attempt (r - 1)).map (backoffDelay opts) := by
  intro r
  induction r with
  | zero =>
    intro attempt lastErr st _
    simp [TestUtils.retryFrom]
  | succ r' ih =>
    intro attempt lastErr st h
    have hfa : act attempt = .error (errOf attempt) :=
      h attempt (Nat.le_refl attempt) (by omega)
    rw [TestUtils.retryFrom, hfa]
    dsimp only
    cases r' with
    | zero =>
      simp only [if_pos rfl]
      simp [TestUtils.retryFrom]
    | succ k2 =>
      rw [if_neg (by omega : ¬(k2 + 1 = 0))]
      have hshift : ∀ i, attempt + 1 ≤ i → i < (attempt + 1) + (k2 + 1) →
          act i = .error (errOf i) := by
        intro i h1 h2
        exact h i (by omega) (by omega)
      have ihm := ih (attempt + 1) (some (errOf attempt))
      refine ⟨?_, ?_, ?_⟩
      · dsimp only
        rw [(ihm _ hshift).1]
        show Except.error (some (errOf (attempt + 1 + k2)))
          = Except.error (some (errOf (attempt + (k2 + 1))))
        have h3 : attempt + 1 + k2 = attempt + (k2 + 1) := by omega
        rw [h3]
      · dsimp only
        rw [(ihm _ hshift).2.1]
      · dsimp only
        rw [(ihm _ hshift).2.2]
        rfl

theorem retryFrom_earlySuccess_core {α : Type} (act : Nat → Except String α)
    (opts : RetryOptions) (tn : Option String) (k : Nat) (v : α)
    (hk : act k = .ok v) :
    ∀ (r attempt : Nat) (lastErr : Option String) (st : LoggerState),
      (∀ i, attempt ≤ i → i < k → ∃ e, act i = Except.error e) →
      attempt ≤ k → k < attempt + r →
      (TestUtils.retryFrom act opts tn attempt r lastErr st).result = .ok v ∧
      (TestUtils.retryFrom act opts tn attempt r lastErr st).invocations
        = k - attempt + 1 ∧
      (TestUtils.retryFrom act opts tn attempt r lastErr st).delays
        = (List.range' attempt (k - attempt)).map (backoffDelay opts) := by
  intro r
  induction r with
  | zero =>
    intro attempt lastErr st _ h2 h3
    exact absurd h3 (by omega)
  | succ r' ih =>
    intro attempt lastErr st hf h2 h3
    by_cases hak : attempt = k
    · subst hak
      rw [TestUtils.retryFrom, hk]
      dsimp only
      refine ⟨rfl, by simp, by simp⟩
    · have halt : attempt < k := Nat.lt_of_le_of_ne h2 hak
      obtain ⟨e, he⟩ := hf attempt (Nat.le_refl attempt) halt
      rw [TestUtils.retryFrom, he]
      dsimp only
      cases r' with
      | zero => exact absurd h3 (by omega)
      | succ k2 =>
        rw [if_neg (by omega : ¬(k2 + 1 = 0))]
        have hf2 : ∀ i, attempt + 1 ≤ i → i < k → ∃ e2, act i = Except.error e2 :=
          fun i h4 h5 => hf i (by omega) h5
        have ihm := ih (attempt + 1) (some e)
        refine ⟨?_, ?_, ?_⟩
        · dsimp only
          rw [(ihm _ hf2 (by omega) (by omega)).1]
        · dsimp only
          rw [(ihm _ hf2 (by omega) (by omega)).2.1]
          omega
        · dsimp only
          rw [(ihm _ hf2 (by omega) (by omega)).2.2]
          have h5 : k - attempt = (k - (attempt + 1)) + 1 := by omega
          rw [h5]
          rfl

theorem retryFrom_delays_shape {α : Type} (act : Nat → Except String α)
    (opts : RetryOptions) (tn : Option String) :
    ∀ (r attempt : Nat) (lastErr : Option String) (st : LoggerState),
      (TestUtils.retryFrom act opts tn attempt r lastErr st).delays
        = (List.range' attempt
            ((TestUtils.retryFrom act opts tn attempt r lastErr st).delays.length)).map
              (backoffDelay opts) := by
  intro r
  induction r with
  | zero => intro attempt lastErr st; simp [TestUtils.retryFrom]
  | succ r' ih =>
    intro attempt lastErr st
    rw [TestUtils.retryFrom]
    dsimp only
    cases act attempt with
    | ok v => simp
    | error e =>
      dsimp only
      cases r' with
      | zero =>
        rw [if_pos rfl]
        simp [TestUtils.retryFrom]
      | succ k2 =>
        rw [if_neg (by omega : ¬(k2 + 1 = 0))]
        dsimp only
        simp only [List.length_cons, List.range', List.map]
        congr 1
        exact ih (attempt + 1) (some e) _

theorem retryOpFrom_invocations_le {α : Type} (act : Nat → Except String α)
    (bd : ℚ) :
    ∀ (r attempt : Nat) (lastErr : Option String),
      (TestUtils.retryOpFrom act bd attempt r lastErr).invocations ≤ r := by
  intro r
  induction r with
  | zero => intro attempt lastErr; simp [TestUtils.retryOpFrom]
  | succ r' ih =>
    intro attempt lastErr
    rw [TestUtils.retryOpFrom]
    cases act attempt with
    | ok v => simp
    | error e =>
      by_cases hr : r' = 0
      · simp only [if_pos hr]
        exact Nat.add_le_add_right (ih (attempt + 1) (some e)) 1
      · simp only [if_neg hr]
        exact Nat.add_le_add_right (ih (attempt + 1) (some e)) 1

theorem retryOpFrom_allFail_core {α : Type} (act : Nat → Except String α)
    (bd : ℚ) (errOf : Nat → String) :
    ∀ (r attempt : Nat) (lastErr : Option String),
      (∀ i, attempt ≤ i → i < attempt + r → act i = .error (errOf i)) →
      (TestUtils.retryOpFrom act bd attempt r lastErr).result
          = .error (match r with
                    | 0 => lastErr
                    | Nat.succ k => some (errOf (attempt + k))) ∧
      (TestUtils.retryOpFrom act bd attempt r lastErr).invocations = r := by
  intro r
  induction r with
  | zero =>
    intro attempt lastErr _
    simp [TestUtils.retryOpFrom]
  | succ r' ih =>
    intro attempt lastErr h
    have hfa : act attempt = .error (errOf attempt) :=
      h attempt (Nat.le_refl attempt) (by omega)
    rw [TestUtils.retryOpFrom, hfa]
    dsimp only
    cases r' with
    | zero =>
      simp only [if_pos rfl]
      simp [TestUtils.retryOpFrom]
    | succ k2 =>
      rw [if_neg (by omega : ¬(k2 + 1 = 0))]
      have hshift : ∀ i, attempt + 1 ≤ i → i < (attempt + 1) + (k2 + 1) →
          act i = .error (errOf i) := by
        intro i h1 h2
        exact h i (by omega) (by omega)
      have ihm := ih (attempt + 1) (some (errOf attempt)) hshift
      refine ⟨?_, ?_⟩
      · dsimp only
        rw [ihm.1]
        show Except.error (some (errOf (attempt + 1 + k2)))
          = Except.error (some (errOf (attempt + (k2 + 1))))
        have h3 : attempt + 1 + k2 = attempt + (k2 + 1) := by omega
        rw [h3]
      · dsimp only
        rw [ihm.2]

theorem retryOpFrom_earlySuccess_core {α : Type} (act : Nat → Except String α)
    (bd : ℚ) (k : Nat) (v : α) (hk : act k = .ok v) :
    ∀ (r attempt : Nat) (lastErr : Option String),
      (∀ i, attempt ≤ i → i < k → ∃ e, act i = Except.error e) →
      attempt ≤ k → k < attempt + r →
      (TestUtils.retryOpFrom act bd attempt r lastErr).result = .ok v ∧
      (TestUtils.retryOpFrom act bd attempt r lastErr).invocations
        = k - attempt + 1 := by
  intro r
  induction r with
  | zero =>
    intro attempt lastErr _ h2 h3
    exact absurd h3 (by omega)
  | succ r' ih =>
    intro attempt lastErr hf h2 h3
    by_cases hak : attempt = k
    · subst hak
      rw [TestUtils.retryOpFrom, hk]
      exact ⟨rfl, by simp⟩
    · have halt : attempt < k := Nat.lt_of_le_of_ne h2 hak
      obtain ⟨e, he⟩ := hf attempt (Nat.le_refl attempt) halt
      rw [TestUtils.retryOpFrom, he]
      dsimp only
      cases r' with
      | zero => exact absurd h3 (by omega)
      | succ k2 =>
        rw [if_neg (by omega : ¬(k2 + 1 = 0))]
        have hf2 : ∀ i, attempt + 1 ≤ i → i < k → ∃ e2, act i = Except.error e2 :=
          fun i h4 h5 => hf i (by omega) h5
        have ihm := ih (attempt + 1) (some e) hf2 (by omega) (by omega)
        refine ⟨?_, ?_⟩
        · dsimp only
          rw [ihm.1]
        · dsimp only
          rw [ihm.2]
          omega

theorem retryOpFrom_delays_shape {α : Type} (act : Nat → Except String α) (bd : ℚ) :
    ∀ (r attempt : Nat) (lastErr : Option String),
      (TestUtils.retryOpFrom act bd attempt r lastErr).delays
        = (List.range' attempt
            ((TestUtils.retryOpFrom act bd attempt r lastErr).delays.length)).map
              (fun i => bd * ratPow 2 (i - 1)) := by
  intro r
  induction r with
  | zero => intro attempt lastErr; simp [TestUtils.retryOpFrom]
  | succ r' ih =>
    intro attempt lastErr
    rw [TestUtils.retryOpFrom]
    dsimp only
    cases act attempt with
    | ok v => simp
    | error e =>
      dsimp only
      cases r' with
      | zero =>
        rw [if_pos rfl]
        simp [TestUtils.retryOpFrom]
      | succ k2 =>
        rw [if_neg (by omega : ¬(k2 + 1 = 0))]
        dsimp only
        simp only [List.length_cons, List.range', List.map]
        congr 1
        exact ih (attempt + 1) (some e)

/-- The claim-relevant data of a stored entry: everything except the
timestamp. -/
def entryData (e : LogEntry) : LogLevel × String × Option JSValue × Option String :=
  (e.level, e.message, e.context, e.testName)

/-- Data of the stored warn-level entries, in order. -/
def filterWarnData (l : List LogEntry) :
    List (LogLevel × String × Option JSValue × Option String) :=
  (l.filter isWarnEntry).map entryData

/-- Data of the stored error-level entries, in order. -/
def filterErrorData (l : List LogEntry) :
    List (LogLevel × String × Option JSValue × Option String) :=
  (l.filter isErrorEntry).map entryData

/-- Data of the warn entry recorded for failed attempt `i` with error `e`. -/
def warnData (i : Nat) (e : String) (tn : Option String) :
    LogLevel × String × Option JSValue × Option String :=
  (LogLevel.warn, "Action attempt " ++ toString i ++ " failed",
   some (JSValue.obj [("error", JSValue.str e), ("attempt", JSValue.num i)]), tn)

/-- Data of the error entry recorded when all `m` attempts are exhausted. -/
def exhaustData (m : Nat) (e : Option String) (tn : Option String) :
    LogLevel × String × Option JSValue × Option String :=
  (LogLevel.error, "Action failed after " ++ toString m ++ " attempts",
   some (JSValue.obj [("error", jsOfErr e)]), tn)

theorem warn_filterWarnData (m : String) (c : Option JSValue) (tn : Option String)
    (st : LoggerState) :
    filterWarnData (TestLogger.warn m c tn st).logs
      = filterWarnData st.logs
        ++ (if shouldLog LogLevel.warn st.logLevel
            then [(LogLevel.warn, m, c, tn)] else []) := by
  unfold TestLogger.warn
  by_cases h : shouldLog LogLevel.warn st.logLevel
  · simp [h, TestLogger.log, filterWarnData, List.filter_append, isWarnEntry, entryData]
  · simp [h]

theorem warn_filterErrorData (m : String) (c : Option JSValue) (tn : Option String)
    (st : LoggerState) :
    filterErrorData (TestLogger.warn m c tn st).logs = filterErrorData st.logs := by
  unfold TestLogger.warn
  split
  · simp [TestLogger.log, filterErrorData, List.filter_append, isErrorEntry]
  · rfl

theorem debug_filterWarnData (m : String) (c : Option JSValue) (tn : Option String)
    (st : LoggerState) :
    filterWarnData (TestLogger.debug m c tn st).logs = filterWarnData st.logs := by
  unfold TestLogger.debug
  split
  · simp [TestLogger.log, filterWarnData, List.filter_append, isWarnEntry]
  · rfl

theorem debug_filterErrorData (m : String) (c : Option JSValue) (tn : Option String)
    (st : LoggerState) :
    filterErrorData (TestLogger.debug m c tn st).logs = filterErrorData st.logs := by
  unfold TestLogger.debug
  split
  · simp [TestLogger.log, filterErrorData, List.filter_append, isErrorEntry]
  · rfl

theorem error_filterWarnData (m : String) (c : Option JSValue) (tn : Option String)
    (st : LoggerState) :
    filterWarnData (TestLogger.error m c tn st).logs = filterWarnData st.logs := by
  unfold TestLogger.error
  rw [if_pos (shouldLog_error_true st.logLevel)]
  simp [TestLogger.log, filterWarnData, List.filter_append, isWarnEntry]

theorem error_filterErrorData (m : String) (c : Option JSValue) (tn : Option String)
    (st : LoggerState) :
    filterErrorData (TestLogger.error m c tn st).logs
      = filterErrorData st.logs ++ [(LogLevel.error, m, c, tn)] := by
  unfold TestLogger.error
  rw [if_pos (shouldLog_error_true st.logLevel)]
  simp [TestLogger.log, filterErrorData, List.filter_append, isErrorEntry, entryData]

theorem retryFrom_allFail_logs {α : Type} (act : Nat → Except String α)
    (opts : RetryOptions) (tn : Option String) (errOf : Nat → String) :
    ∀ (r attempt : Nat) (lastErr : Option String) (st : LoggerState),
      (∀ i, attempt ≤ i → i < attempt + r → act i = .error (errOf i)) →
      filterWarnData (TestUtils.retryFrom act opts tn attempt r lastErr st).logger.logs
        = filterWarnData st.logs
          ++ (if shouldLog LogLevel.warn st.logLevel
              then (List.range' attempt r).map (fun i => warnData i (errOf i) tn)
              else []) ∧
      filterErrorData (TestUtils.retryFrom act opts tn attempt r lastErr st).logger.logs
        = filterErrorData st.logs
          ++ [exhaustData opts.maxRetries
               (match r with | 0 => lastErr | Nat.succ k2 => some (errOf (attempt + k2)))
               tn] := by
  intro r
  induction r with
  | zero =>
    intro attempt lastErr st _
    rw [TestUtils.retryFrom]
    dsimp only
    constructor
    · rw [error_filterWarnData]
      simp
    · rw [error_filterErrorData]
      rfl
  | succ r' ihr =>
    intro attempt lastErr st h
    have hfa : act attempt = .error (errOf attempt) :=
      h attempt (Nat.le_refl attempt) (by omega)
    have hshift : ∀ i, attempt + 1 ≤ i → i < (attempt + 1) + r' →
        act i = .error (errOf i) :=
      fun i h1 h2 => h i (by omega) (by omega)
    rw [TestUtils.retryFrom, hfa]
    dsimp only
    by_cases hr : r' = 0
    · subst hr
      rw [if_pos rfl]
      dsimp only
      constructor
      · rw [(ihr (attempt + 1) (some (errOf attempt)) _ hshift).1,
          warn_filterWarnData, warn_logLevel]
        by_cases hw : shouldLog LogLevel.warn st.logLevel
        · simp only [hw, if_true, List.append_assoc, List.singleton_append]
          rfl
        · simp [hw]
      · rw [(ihr (attempt + 1) (some (errOf attempt)) _ hshift).2,
          warn_filterErrorData]
        rfl
    · obtain ⟨k2, rfl⟩ : ∃ k2, r' = k2 + 1 := ⟨r' - 1, by omega⟩
      rw [if_neg hr]
      dsimp only
      constructor
      · rw [(ihr (attempt + 1) (some (errOf attempt)) _ hshift).1,
          debug_filterWarnData, warn_filterWarnData, debug_logLevel, warn_logLevel]
        by_cases hw : shouldLog LogLevel.warn st.logLevel
        · simp only [hw, if_true, List.append_assoc, List.singleton_append]
          rfl
        · simp [hw]
      · rw [(ihr (attempt + 1) (some (errOf attempt)) _ hshift).2,
          debug_filterErrorData, warn_filterErrorData]
        dsimp only
        rw [show attempt + 1 + k2 = attempt + (k2 + 1) from by omega]

theorem retryFrom_earlySuccess_logs {α : Type} (act : Nat → Except String α)
    (opts : RetryOptions) (tn : Option String) (errOf : Nat → String)
    (k : Nat) (v : α) (hk : act k = .ok v) :
    ∀ (r attempt : Nat) (lastErr : Option String) (st : LoggerState),
      (∀ i, attempt ≤ i → i < k → act i = .error (errOf i)) →
      attempt ≤ k → k < attempt + r →
      filterWarnData (TestUtils.retryFrom act opts tn attempt r lastErr st).logger.logs
        = filterWarnData st.logs
          ++ (if shouldLog LogLevel.warn st.logLevel
              then (List.range' attempt (k - attempt)).map
                (fun i => warnData i (errOf i) tn)
              else []) ∧
      filterErrorData (TestUtils.retryFrom act opts tn attempt r lastErr st).logger.logs
        = filterErrorData st.logs := by
  intro r
  induction r with
  | zero =>
    intro attempt lastErr st _ h2 h3
    exact absurd h3 (by omega)
  | succ r' ihr =>
    intro attempt lastErr st hf h2 h3
    by_cases hak : attempt = k
    · subst hak
      rw [TestUtils.retryFrom, hk]
      dsimp only
      constructor
      · rw [debug_filterWarnData]
        simp [Nat.sub_self]
      · rw [debug_filterErrorData]
    · have halt : attempt < k := Nat.lt_of_le_of_ne h2 hak
      have he : act attempt = .error (errOf attempt) :=
        hf attempt (Nat.le_refl attempt) halt
      have hf2 : ∀ i, attempt + 1 ≤ i → i < k → act i = .error (errOf i) :=
        fun i h4 h5 => hf i (by omega) h5
      rw [TestUtils.retryFrom, he]
      dsimp only
      cases r' with
      | zero => exact absurd h3 (by omega)
      | succ k2 =>
        rw [if_neg (by omega : ¬(k2 + 1 = 0))]
        dsimp only
        constructor
        · rw [(ihr (attempt + 1) (some (errOf attempt)) _ hf2 (by omega) (by omega)).1,
            debug_filterWarnData, warn_filterWarnData, debug_logLevel, warn_logLevel]
          by_cases hw : shouldLog LogLevel.warn st.logLevel
          · simp only [hw, if_true, List.append_assoc, List.singleton_append]
            rw [show k - attempt = (k - (attempt + 1)) + 1 from by omega]
            rfl
          · simp [hw]
        · rw [(ihr (attempt + 1) (some (errOf attempt)) _ hf2 (by omega) (by omega)).2,
            debug_filterErrorData, warn_filterErrorData]

theorem ratMin_eq_min (a b : ℚ) : ratMin a b = min a b := by
  rw [ratMin, min_def]

theorem ratPow_eq_pow (q : ℚ) (n : Nat) : ratPow q n = q ^ n := by
  induction n with
  | zero => simp [ratPow]
  | succ n ih => rw [ratPow, ih, pow_succ]

theorem backoffDelay_eq (opts : RetryOptions) (a : Nat) :
    backoffDelay opts a
      = min (opts.baseDelay * opts.backoffMultiplier ^ (a - 1)) opts.maxDelay := by
  rw [backoffDelay, ratMin_eq_min, ratPow_eq_pow]

theorem backoffDelay_mono (opts : RetryOptions) (hb : 0 ≤ opts.baseDelay)
    (hm : 1 ≤ opts.backoffMultiplier) (a : Nat) :
    backoffDelay opts a ≤ backoffDelay opts (a + 1) := by
  rw [backoffDelay_eq, backoffDelay_eq]
  refine min_le_min ?_ le_rfl
  refine mul_le_mul_of_nonneg_left ?_ hb
  exact pow_le_pow_right₀ hm (by omega)

theorem backoffDelay_le_max (opts : RetryOptions) (a : Nat) :
    backoffDelay opts a ≤ opts.maxDelay := by
  rw [backoffDelay_eq]
  exact min_le_right _ _

/-! ## Claim theorems: the resilient executor -/

/-- C1: with `maxRetries ≥ 1`, both `performActionWithRetry` and
`retryOperation` never invoke the action more than `maxRetries` times; when
the action fails on attempts `1..k-1` and succeeds on attempt `k ≤ maxRetries`
they return the attempt-k value after exactly `k` invocations; and when every
attempt fails they make exactly `maxRetries` invocations and throw the error
of the last attempt. -/
theorem c1_retry_executor_semantics {α : Type} (act : Nat → Except String α)
    (opts : RetryOptions) (tn : Option String) (st : LoggerState) (bd : ℚ)
    (hM : 1 ≤ opts.maxRetries) :
    ((TestUtils.performActionWithRetry act opts tn st).invocations ≤ opts.maxRetries ∧
     (TestUtils.retryOperation act opts.maxRetries bd).invocations ≤ opts.maxRetries) ∧
    (∀ (k : Nat) (v : α), 1 ≤ k → k ≤ opts.maxRetries →
      (∀ i, 1 ≤ i → i < k → ∃ e, act i = Except.error e) → act k = Except.ok v →
      (TestUtils.performActionWithRetry act opts tn st).result = Except.ok v ∧
      (TestUtils.performActionWithRetry act opts tn st).invocations = k ∧
      (TestUtils.retryOperation act opts.maxRetries bd).result = Except.ok v ∧
      (TestUtils.retryOperation act opts.maxRetries bd).invocations = k) ∧
    (∀ errOf : Nat → String,
      (∀ i, 1 ≤ i → i ≤ opts.maxRetries → act i = Except.error (errOf i)) →
      (TestUtils.performActionWithRetry act opts tn st).result
        = Except.error (some (errOf opts.maxRetries)) ∧
      (TestUtils.performActionWithRetry act opts tn st).invocations = opts.maxRetries ∧
      (TestUtils.retryOperation act opts.maxRetries bd).result
        = Except.error (some (errOf opts.maxRetries)) ∧
      (TestUtils.retryOperation act opts.maxRetries bd).invocations
        = opts.maxRetries) := by
  refine ⟨⟨?_, ?_⟩, ?_, ?_⟩
  · rw [TestUtils.performActionWithRetry]
    exact retryFrom_invocations_le act opts tn opts.maxRetries 1 none _
  · rw [TestUtils.retryOperation]
    exact retryOpFrom_invocations_le act bd opts.maxRetries 1 none
  · intro k v hk1 hk2 hfx hok
    refine ⟨?_, ?_, ?_, ?_⟩
    · rw [TestUtils.performActionWithRetry]
      rw [(retryFrom_earlySuccess_core act opts tn k v hok opts.maxRetries 1 none _
        hfx (by omega) (by omega)).1]
    · rw [TestUtils.performActionWithRetry]
      rw [(retryFrom_earlySuccess_core act opts tn k v hok opts.maxRetries 1 none _
        hfx (by omega) (by omega)).2.1]
      omega
    · rw [TestUtils.retryOperation]
      rw [(retryOpFrom_earlySuccess_core act bd k v hok opts.maxRetries 1 none
        hfx (by omega) (by omega)).1]
    · rw [TestUtils.retryOperation]
      rw [(retryOpFrom_earlySuccess_core act bd k v hok opts.maxRetries 1 none
        hfx (by omega) (by omega)).2]
      omega
  · intro errOf hfail
    cases hc : opts.maxRetries with
    | zero => omega
    | succ M =>
      have hwin : ∀ i, 1 ≤ i → i < 1 + (M + 1) → act i = Except.error (errOf i) := by
        intro i h1 h2
        exact hfail i h1 (by omega)
      refine ⟨?_, ?_, ?_, ?_⟩
      · rw [TestUtils.performActionWithRetry, hc]
        rw [(retryFrom_allFail_core act opts tn errOf (M + 1) 1 none _ hwin).1]
        dsimp only
        rw [Nat.add_comm 1 M]
      · rw [TestUtils.performActionWithRetry, hc]
        rw [(retryFrom_allFail_core act opts tn errOf (M + 1) 1 none _ hwin).2.1]
      · rw [TestUtils.retryOperation]
        rw [(retryOpFrom_allFail_core act bd errOf (M + 1) 1 none hwin).1]
        dsimp only
        rw [Nat.add_comm 1 M]
      · rw [TestUtils.retryOperation]
        rw [(retryOpFrom_allFail_core act bd errOf (M + 1) 1 none hwin).2]

/-- C2: the backoff before attempt `a+1` computed by `performActionWithRetry`
is exactly `min(baseDelay * backoffMultiplier^(a-1), maxDelay)` — every run's
delay list is the image of successive attempt numbers under that formula —
and with `baseDelay ≥ 0`, `multiplier ≥ 1` the delay is monotonically
non-decreasing in the attempt and never exceeds `maxDelay`. `retryOperation`
sleeps the unclamped geometric delays `baseDelay * 2^(a-1)`. -/
theorem c2_backoff_delay_law (opts : RetryOptions) (_hM : 1 ≤ opts.maxRetries)
    (hb : 0 ≤ opts.baseDelay) (_hd : opts.baseDelay ≤ opts.maxDelay)
    (hm : 1 ≤ opts.backoffMultiplier) (a : Nat) (_ha : 1 ≤ a) :
    backoffDelay opts a
      = min (opts.baseDelay * opts.backoffMultiplier ^ (a - 1)) opts.maxDelay ∧
    (∀ (α : Type) (act : Nat → Except String α) (tn : Option String)
      (st : LoggerState),
      (TestUtils.performActionWithRetry act opts tn st).delays
        = (List.range' 1
            ((TestUtils.performActionWithRetry act opts tn st).delays.length)).map
              (backoffDelay opts)) ∧
    backoffDelay opts a ≤ backoffDelay opts (a + 1) ∧
    backoffDelay opts (a + 1) ≤ opts.maxDelay ∧
    backoffDelay opts a ≤ opts.maxDelay ∧
    (∀ (α : Type) (act : Nat → Except String α) (m : Nat) (bd : ℚ),
      (TestUtils.retryOperation act m bd).delays
        = (List.range' 1 ((TestUtils.retryOperation act m bd).delays.length)).map
            (fun i => bd * (2 : ℚ) ^ (i - 1))) := by
  refine ⟨backoffDelay_eq opts a, ?_, backoffDelay_mono opts hb hm a,
    backoffDelay_le_max opts (a + 1), backoffDelay_le_max opts a, ?_⟩
  · intro α act tn st
    rw [TestUtils.performActionWithRetry]
    exact retryFrom_delays_shape act opts tn opts.maxRetries 1 none _
  · intro α act m bd
    rw [TestUtils.retryOperation]
    have h1 := retryOpFrom_delays_shape act bd m 1 none
    simp only [ratPow_eq_pow] at h1
    exact h1

/-- C8 counterexample: with the store's minimum level set to `error`, a run
with one failed attempt stores no warning-level entry at all, refuting "each
failed attempt records exactly one warning-level event" for every run. -/
theorem c8_retry_warn_suppressed_cex :
    (TestUtils.performActionWithRetry (α := Nat) (fun _ => Except.error "e")
        ⟨1, 1000, 10000, 2⟩ (some "t") ⟨LogLevel.error, [], 0⟩).invocations = 1 ∧
    (TestUtils.performActionWithRetry (α := Nat) (fun _ => Except.error "e")
        ⟨1, 1000, 10000, 2⟩ (some "t") ⟨LogLevel.error, [], 0⟩).logger.logs.filter
          isWarnEntry = [] :=
  ⟨rfl, rfl⟩

/-- C8 amended: provided the store's configured minimum level admits warnings
(the default `info` does), a run of `performActionWithRetry` whose attempts
all fail stores exactly one warning-level entry per failed attempt, carrying
that attempt's number and error and the caller's tag, and exactly one
error-level entry reporting exhaustion (the error entry is stored at any
minimum level); a run that succeeds at attempt `k` stores warn entries for
attempts `1..k-1` and no error entry; in the concrete exhaustion scenario
(three attempts all failing with "boom") exactly one error-level entry is
stored. -/
theorem c8_retry_logging_amended {α : Type} (act : Nat → Except String α)
    (opts : RetryOptions) (tn : Option String) (st : LoggerState)
    (errOf : Nat → String) (hM : 1 ≤ opts.maxRetries)
    (hfail : ∀ i, 1 ≤ i → i ≤ opts.maxRetries → act i = Except.error (errOf i)) :
    ((shouldLog LogLevel.warn st.logLevel = true →
      filterWarnData (TestUtils.performActionWithRetry act opts tn st).logger.logs
        = filterWarnData st.logs
          ++ (List.range' 1 opts.maxRetries).map (fun i => warnData i (errOf i) tn)) ∧
     filterErrorData (TestUtils.performActionWithRetry act opts tn st).logger.logs
       = filterErrorData st.logs
         ++ [exhaustData opts.maxRetries (some (errOf opts.maxRetries)) tn]) ∧
    (∀ (act2 : Nat → Except String α) (k : Nat) (v : α),
      1 ≤ k → k ≤ opts.maxRetries →
      (∀ i, 1 ≤ i → i < k → act2 i = Except.error (errOf i)) →
      act2 k = Except.ok v →
      (shouldLog LogLevel.warn st.logLevel = true →
        filterWarnData (TestUtils.performActionWithRetry act2 opts tn st).logger.logs
          = filterWarnData st.logs
            ++ (List.range' 1 (k - 1)).map (fun i => warnData i (errOf i) tn)) ∧
      filterErrorData (TestUtils.performActionWithRetry act2 opts tn st).logger.logs
        = filterErrorData st.logs) ∧
    ((TestUtils.performActionWithRetry (α := Nat) (fun _ => Except.error "boom")
        ⟨3, 1000, 10000, 2⟩ (some "t") initLogger).logger.logs.filter
          isErrorEntry).length = 1 := by
  refine ⟨⟨?_, ?_⟩, ?_, rfl⟩
  · intro hw
    cases hc : opts.maxRetries with
    | zero => omega
    | succ M =>
      have hwin : ∀ i, 1 ≤ i → i < 1 + (M + 1) → act i = Except.error (errOf i) := by
        intro i h1 h2
        exact hfail i h1 (by omega)
      rw [TestUtils.performActionWithRetry, hc]
      rw [(retryFrom_allFail_logs act opts tn errOf (M + 1) 1 none _ hwin).1,
        debug_filterWarnData, debug_logLevel, if_pos hw]
  · cases hc : opts.maxRetries with
    | zero => omega
    | succ M =>
      have hwin : ∀ i, 1 ≤ i → i < 1 + (M + 1) → act i = Except.error (errOf i) := by
        intro i h1 h2
        exact hfail i h1 (by omega)
      rw [TestUtils.performActionWithRetry, hc]
      rw [(retryFrom_allFail_logs act opts tn errOf (M + 1) 1 none _ hwin).2,
        debug_filterErrorData]
      dsimp only
      rw [Nat.add_comm 1 M, hc]
  · intro act2 k v hk1 hk2 hf2 hok
    constructor
    · intro hw
      rw [TestUtils.performActionWithRetry]
      rw [(retryFrom_earlySuccess_logs act2 opts tn errOf k v hok opts.maxRetries
        1 none _ hf2 (by omega) (by omega)).1, debug_filterWarnData,
        debug_logLevel, if_pos hw]
    · rw [TestUtils.performActionWithRetry]
      rw [(retryFrom_earlySuccess_logs act2 opts tn errOf k v hok opts.maxRetries
        1 none _ hf2 (by omega) (by omega)).2, debug_filterErrorData]

/-- A concrete action failing on attempt 1 and succeeding on attempt 2. -/
def wAct : Nat → Except String Nat :=
  fun i => if i = 2 then .ok 7 else .error ("e" ++ toString i)

/-- Witness for C1: the concrete action succeeds at attempt 2 of 3, with
exactly 2 invocations through both executors. -/
theorem c1_witness :
    ((1 : Nat) ≤ 3 ∧ wAct 2 = Except.ok 7) ∧
    ((TestUtils.performActionWithRetry wAct ⟨3, 1000, 10000, 2⟩ (some "t")
        initLogger).result = Except.ok 7 ∧
     (TestUtils.performActionWithRetry wAct ⟨3, 1000, 10000, 2⟩ (some "t")
        initLogger).invocations = 2 ∧
     (TestUtils.retryOperation wAct 3 1000).result = Except.ok 7 ∧
     (TestUtils.retryOperation wAct 3 1000).invocations = 2) :=
  ⟨⟨by decide, rfl⟩,
   (c1_retry_executor_semantics wAct ⟨3, 1000, 10000, 2⟩ (some "t") initLogger 1000
       (by decide)).2.1 2 7 (by decide) (by decide)
     (fun i h1 h2 => ⟨"e" ++ toString i, by
        have h3 : i = 1 := by omega
        subst h3
        rfl⟩) rfl⟩

/-- Witness for C2 at the concrete policy (3 attempts, base 100 ms, cap
1000 ms, multiplier 2) and attempt 1. -/
theorem c2_witness :
    ((1 : Nat) ≤ 3 ∧ (0 : ℚ) ≤ 100 ∧ (100 : ℚ) ≤ 1000 ∧ (1 : ℚ) ≤ 2) ∧
    (backoffDelay ⟨3, 100, 1000, 2⟩ 1
        = min ((100 : ℚ) * (2 : ℚ) ^ (1 - 1 : Nat)) 1000 ∧
     backoffDelay ⟨3, 100, 1000, 2⟩ 1 ≤ backoffDelay ⟨3, 100, 1000, 2⟩ 2 ∧
     backoffDelay ⟨3, 100, 1000, 2⟩ 2 ≤ (1000 : ℚ) ∧
     (TestUtils.performActionWithRetry (α := Nat) (fun _ => Except.error "x")
        ⟨3, 100, 1000, 2⟩ none initLogger).delays
       = (List.range' 1
           ((TestUtils.performActionWithRetry (α := Nat) (fun _ => Except.error "x")
             ⟨3, 100, 1000, 2⟩ none initLogger).delays.length)).map
             (backoffDelay ⟨3, 100, 1000, 2⟩)) := by
  have h := c2_backoff_delay_law ⟨3, 100, 1000, 2⟩ (by decide) (by norm_num)
    (by norm_num) (by norm_num) 1 (by decide)
  exact ⟨⟨by decide, by norm_num, by norm_num, by norm_num⟩,
    h.1, h.2.2.1, h.2.2.2.1, h.2.1 Nat (fun _ => Except.error "x") none initLogger⟩

/-- The always-failing action of the exhaustion scenario. -/
def wBoom : Nat → Except String Nat := fun _ => Except.error "boom"

/-- Witness for C8 (amended): the exhaustion scenario at the default store
level stores one warn entry per attempt and one exhaustion error entry. -/
theorem c8_witness :
    ((1 : Nat) ≤ 3 ∧ (∀ i : Nat, wBoom i = Except.error "boom")) ∧
    ((shouldLog LogLevel.warn initLogger.logLevel = true →
      filterWarnData (TestUtils.performActionWithRetry wBoom ⟨3, 1000, 10000, 2⟩
          (some "t") initLogger).logger.logs
        = filterWarnData initLogger.logs
          ++ (List.range' 1 3).map (fun i => warnData i "boom" (some "t"))) ∧
     filterErrorData (TestUtils.performActionWithRetry wBoom ⟨3, 1000, 10000, 2⟩
         (some "t") initLogger).logger.logs
       = filterErrorData initLogger.logs ++ [exhaustData 3 (some "boom") (some "t")]) :=
  ⟨⟨by decide, fun i => rfl⟩,
   (c8_retry_logging_amended wBoom ⟨3, 1000, 10000, 2⟩ (some "t") initLogger
     (fun _ => "boom") (by decide) (fun i h1 h2 => rfl)).1⟩
